import Mathlib

/-!
Verification of the swarm-orchestrator scheduling core.

This file gives a shallow embedding of the scheduling, analysis and
persistence logic of `SwarmOrchestrator`, as implemented in
`.trae/skills/swarm-orchestrator/orchestrator.py` (namespace
`Orchestrator` below) and in the duplicate implementation in
`.trae/skills/workflow-runner/workflow_runner.py` (namespace `Runner`
below), and proves the testable properties stated for them.

Python `str` values are modelled by `String`, `dict[str, list[str]]`
values (the dependency DAG) by association lists `List (String × List
String)` (the theorems carry a `Nodup` hypothesis on the keys where
key uniqueness of the Python `dict` matters), and JSON task records by
structures or association lists as noted at each definition.  The two
`while` loops (Kahn-style level schedulers) are embedded with an
explicit fuel argument initialised to the number of vertices; each
productive loop iteration strictly shrinks the `remaining` set, so
this fuel is never exhausted before the Python loop would have
terminated on its own.
-/

/-- Character-list version of Python's `str.startswith`:
`charsStart n h` is true when `n` is an initial segment of `h`. -/
def charsStart : List Char → List Char → Bool
  | [], _ => true
  | _ :: _, [] => false
  | a :: as, b :: bs => a = b && charsStart as bs

/-- Character-list version of Python's substring test `n in h`. -/
def charsHaveSub (n : List Char) : List Char → Bool
  | [] => n.isEmpty
  | c :: t => charsStart n (c :: t) || charsHaveSub n t

/-- Python's `kw in request` substring containment on strings. -/
def strHasSub (hay needle : String) : Bool :=
  charsHaveSub needle.data hay.data

namespace Orchestrator

/-- Complex-signal keywords of `SwarmOrchestrator.analyze_task`
(each occurrence is worth 2 points). -/
def keywords_complex : List String :=
  ["系统", "架构", "重构", "开发", "实现", "集成", "部署", "测试套件", "文档系统"]

/-- Simple-signal keywords of `SwarmOrchestrator.analyze_task`
(each occurrence is worth 1 point). -/
def keywords_simple : List String :=
  ["修改", "修复", "优化", "添加", "更新"]

/-- The `complexity_score` accumulated by `analyze_task`: 2 points per
complex keyword contained in the request, 1 per simple keyword. -/
def complexityScore (user_request : String) : Nat :=
  2 * keywords_complex.countP (fun kw => strHasSub user_request kw) +
    keywords_simple.countP (fun kw => strHasSub user_request kw)

/-- Result record of `analyze_task` (dataclass `TaskAnalysis`). -/
structure TaskAnalysis where
  core_goal : String
  task_type : String
  complexity : String
  swarm_mode : Bool
  reasoning : String
deriving Repr, DecidableEq

/-- `SwarmOrchestrator.analyze_task`: keyword scoring, threshold
classification, and a second keyword scan choosing the task type. -/
def analyze_task (user_request : String) : TaskAnalysis :=
  let score := complexityScore user_request
  let complexity : String :=
    if score ≥ 4 then "complex" else if score ≥ 2 then "medium" else "simple"
  let swarm_mode : Bool :=
    if score ≥ 4 then true
    else if score ≥ 2 then strHasSub user_request "并行" || strHasSub user_request "同时"
    else false
  let task_type : String :=
    if strHasSub user_request "测试" then "test"
    else if strHasSub user_request "文档" then "docs"
    else if strHasSub user_request "调研" || strHasSub user_request "研究" then "research"
    else if strHasSub user_request "重构" then "refactor"
    else "development"
  { core_goal := user_request
    task_type := task_type
    complexity := complexity
    swarm_mode := swarm_mode
    reasoning := "复杂度评分: " ++ toString score ++ ", 任务类型: " ++ task_type }

/-- Sub-task record produced by `decompose_task` (dataclass `SubTask`;
the run-time metadata fields `worker_id`, timestamps, `result_file`,
`error`, `input_data`, `expected_output` start unset/empty and play no
role in the scheduling claims, so they are not modelled). -/
structure SubTask where
  task_id : String
  description : String
  worker_type : String
  dependencies : List String
  priority : String
  status : String := "pending"
deriving Repr, DecidableEq

/-- `SwarmOrchestrator.decompose_task`.  Task ids come from
`uuid.uuid4()`; the id supply is abstracted as `ids : Nat → String`.
In the Python source every branch builds the whole list in a single
list literal `tasks = [...]` whose dependency expressions mention the
name `tasks`; Python evaluates the full right-hand side *before*
rebinding `tasks`, so during that evaluation `tasks` still denotes the
empty list bound at the top of the function.  `tasks0` below is that
still-empty value.  Consequently every guarded dependency expression
(`... if tasks else []`, `... if len(tasks) > 1 else []`, …) takes its
`else` branch, and the unguarded subscripts `tasks[0]`, `tasks[1]`,
`tasks[2]` in the `refactor` and `test` branches raise `IndexError`,
modelled as `Except.error`. -/
def decompose_task (analysis : TaskAnalysis) (ids : Nat → String) :
    Except String (List SubTask) :=
  let tasks0 : List SubTask := []
  if analysis.task_type = "development" then
    .ok [
      { task_id := ids 0, description := "调研技术方案和最佳实践",
        worker_type := "researcher", dependencies := [], priority := "high" },
      { task_id := ids 1, description := "设计系统架构和数据模型",
        worker_type := "coder",
        dependencies := match tasks0 with | [] => [] | t :: _ => [t.task_id],
        priority := "high" },
      { task_id := ids 2, description := "实现核心功能代码",
        worker_type := "coder",
        dependencies := if h : tasks0.length > 1 then [(tasks0.get ⟨1, h⟩).task_id] else [],
        priority := "high" },
      { task_id := ids 3, description := "编写单元测试和集成测试",
        worker_type := "tester",
        dependencies := if h : tasks0.length > 2 then [(tasks0.get ⟨2, h⟩).task_id] else [],
        priority := "medium" },
      { task_id := ids 4, description := "编写 API 文档和使用说明",
        worker_type := "writer",
        dependencies := if h : tasks0.length > 2 then [(tasks0.get ⟨2, h⟩).task_id] else [],
        priority := "medium" },
      { task_id := ids 5, description := "代码审查和质量检查",
        worker_type := "reviewer",
        dependencies :=
          if tasks0.length > 3 then ((tasks0.drop 2).take 2).map (·.task_id) else [],
        priority := "medium" }]
  else if analysis.task_type = "refactor" then
    match tasks0.get? 0, tasks0.get? 1, tasks0.get? 2 with
    | some t0, some t1, some t2 =>
      .ok [
        { task_id := ids 0, description := "分析现有代码结构",
          worker_type := "researcher", dependencies := [], priority := "high" },
        { task_id := ids 1, description := "设计重构方案",
          worker_type := "coder", dependencies := [t0.task_id], priority := "high" },
        { task_id := ids 2, description := "执行代码重构",
          worker_type := "coder", dependencies := [t1.task_id], priority := "high" },
        { task_id := ids 3, description := "验证重构结果",
          worker_type := "tester", dependencies := [t2.task_id], priority := "medium" }]
    | _, _, _ => .error "IndexError: list index out of range"
  else if analysis.task_type = "test" then
    match tasks0.get? 0, tasks0.get? 1 with
    | some t0, some t1 =>
      .ok [
        { task_id := ids 0, description := "分析测试需求",
          worker_type := "researcher", dependencies := [], priority := "high" },
        { task_id := ids 1, description := "编写测试用例",
          worker_type := "tester", dependencies := [t0.task_id], priority := "high" },
        { task_id := ids 2, description := "执行测试并生成报告",
          worker_type := "tester", dependencies := [t1.task_id], priority := "medium" }]
    | _, _ => .error "IndexError: list index out of range"
  else
    .ok [
      { task_id := ids 0, description := "执行任务: " ++ analysis.core_goal,
        worker_type := "coder", dependencies := [], priority := "medium" }]

/-- `SwarmOrchestrator.build_dag`: the dependency map keyed by task id. -/
def build_dag (tasks : List SubTask) : List (String × List String) :=
  tasks.map (fun t => (t.task_id, t.dependencies))

/-- Key set of a dependency DAG (the Python `dict` keys, in order). -/
def gkeys (g : List (String × List String)) : List String := g.map Prod.fst

/-- Dependency list `dag[n]` of a node (empty when the node is absent;
the schedulers only ever look up nodes that are present). -/
def depsOf (g : List (String × List String)) (n : String) : List String :=
  ((g.find? (fun p => decide (p.1 = n))).map Prod.snd).getD []

/-- One `ready` computation of `SwarmOrchestrator.get_execution_order`:
the nodes of `remaining` whose current in-degree is zero, i.e. none of
whose dependencies is still in `remaining` (dependencies outside
`remaining` — already scheduled or dangling — are not counted). -/
def kahnReady (g : List (String × List String)) (remaining : List String) : List String :=
  remaining.filter (fun n => decide (∀ d ∈ depsOf g n, d ∉ remaining))

/-- The `while remaining:` loop of `get_execution_order`, with explicit
fuel.  The loop exits normally when `remaining` is empty and `break`s —
silently, returning the levels built so far — when no node has
in-degree zero (a dependency cycle). -/
def kahnAux (g : List (String × List String)) : Nat → List String → List (List String)
  | 0, _ => []
  | Nat.succ fuel, remaining =>
    if kahnReady g remaining = [] then []
    else kahnReady g remaining ::
      kahnAux g fuel (remaining.filter (fun n => decide (n ∉ kahnReady g remaining)))

/-- `SwarmOrchestrator.get_execution_order`: batched Kahn scheduling of
a dependency DAG into levels of simultaneously-ready node ids. -/
def get_execution_order (g : List (String × List String)) : List (List String) :=
  kahnAux g (gkeys g).length (gkeys g)

/-- The restriction of a DAG to in-graph dependency edges: every
dependency id that is not a key of the DAG is dropped. -/
def restrictDag (g : List (String × List String)) : List (String × List String) :=
  g.map (fun p => (p.1, p.2.filter (fun d => decide (d ∈ gkeys g))))

/-- Acyclicity of the dependency relation restricted to the keys of the
DAG: a topological numbering exists under which every in-graph
dependency of a node is ranked strictly below the node. -/
def AcyclicOn (g : List (String × List String)) : Prop :=
  ∃ rank : String → Nat,
    ∀ n ∈ gkeys g, ∀ d ∈ depsOf g n, d ∈ gkeys g → rank d < rank n

/-- Persisted task record as consumed by `get_ready_tasks`,
`get_progress` and `aggregate_results` (the entries of
`queue["tasks"]`; only the fields those functions read are modelled). -/
structure QTask where
  task_id : String
  status : String
  dependencies : List String
deriving Repr, DecidableEq

/-- Persisted queue as consumed by the monitoring functions.  The
functions guard with `if not queue` after `read_queue`, which returns
the empty dict when `queue.json` is missing; that missing/empty case is
modelled by passing `none`. -/
structure SwarmQueue where
  tasks : List QTask
deriving Repr, DecidableEq

/-- The set `completed_tasks` of `get_ready_tasks`: ids of tasks whose
status is `"completed"`. -/
def completedIds (q : SwarmQueue) : List String :=
  (q.tasks.filter (fun t => decide (t.status = "completed"))).map (·.task_id)

/-- `SwarmOrchestrator.get_ready_tasks`: the pending tasks all of whose
dependency ids belong to `completed_tasks`. -/
def get_ready_tasks (q : Option SwarmQueue) : List QTask :=
  match q with
  | none => []
  | some q =>
    q.tasks.filter (fun t =>
      decide (t.status = "pending") &&
        decide (∀ d ∈ t.dependencies, d ∈ completedIds q))

/-- Result record of `get_progress`.  In the missing-queue early return
the Python dict carries no `progress_percent` key at all; that absent
key is modelled by `none`. -/
structure Progress where
  total : Nat
  completed : Nat
  running : Nat
  pending : Nat
  failed : Nat
  progress_percent : Option ℚ
deriving Repr, DecidableEq

/-- `SwarmOrchestrator.get_progress`: status counters plus the
percentage `completed / total * 100`, guarded by `total > 0`. -/
def get_progress (q : Option SwarmQueue) : Progress :=
  match q with
  | none => { total := 0, completed := 0, running := 0, pending := 0, failed := 0,
              progress_percent := none }
  | some q =>
    let ts := q.tasks
    let total := ts.length
    let completed := ts.countP (fun t => decide (t.status = "completed"))
    { total := total
      completed := completed
      running := ts.countP (fun t => decide (t.status = "running"))
      pending := ts.countP (fun t => decide (t.status = "pending"))
      failed := ts.countP (fun t => decide (t.status = "failed"))
      progress_percent :=
        some (if total > 0 then (completed : ℚ) / (total : ℚ) * 100 else 0) }

/-- The `final_status` derivation of `SwarmOrchestrator.aggregate_results`
(`"no_tasks"` on a missing/empty queue; otherwise `"success"`, downgraded
to `"partial"` or `"failed"` when failures are present). -/
def aggregate_status (q : Option SwarmQueue) : String :=
  match q with
  | none => "no_tasks"
  | some q =>
    let p := get_progress (some q)
    if p.failed > 0 then (if p.completed > 0 then "partial" else "failed")
    else "success"

/-- Raw JSON task record for `update_task_status`: an association list
of field name to field value (`update_task_status` manipulates the
deserialised JSON object directly, so the record is kept untyped). -/
abbrev TaskRec := List (String × String)

/-- First-match association-list lookup (Python `dict` access under its
unique-key invariant). -/
def lookupRec {α : Type} (m : List (String × α)) (k : String) : Option α :=
  (m.find? (fun p => decide (p.1 = k))).map (·.2)

/-- Python `record[k] = v`: overwrite the value at an existing key,
append the binding otherwise. -/
def setField (r : TaskRec) (k v : String) : TaskRec :=
  if (r.find? (fun p => decide (p.1 = k))).isSome then
    r.map (fun p => if p.1 = k then (p.1, v) else p)
  else r ++ [(k, v)]

/-- Python `record.update(kwargs)` applied after the status write. -/
def applyFields (r : TaskRec) (kwargs : List (String × String)) : TaskRec :=
  kwargs.foldl (fun acc p => setField acc p.1 p.2) r

/-- Persisted queue file as read and rewritten by `update_task_status`
(fields `version`/`created_at` are immutable metadata strings and are
subsumed in `main_task_id`-style frame reasoning; the task map is kept
raw because `update(kwargs)` may touch arbitrary fields). -/
structure RawQueue where
  main_task_id : String
  tasks : List (String × TaskRec)
  dag : List (String × List String)
  execution_order : List (List String)

/-- `SwarmOrchestrator.update_task_status`: rewrite the queue file with
the addressed task's `status` field set and `kwargs` merged in, or do
nothing at all (`none` — the file is not rewritten) when the task id is
absent from the task map. -/
def update_task_status (q : RawQueue) (task_id status : String)
    (kwargs : List (String × String)) : Option RawQueue :=
  match lookupRec q.tasks task_id with
  | none => none
  | some r =>
    some { q with
      tasks := q.tasks.map (fun p =>
        if p.1 = task_id then (p.1, applyFields (setField r "status" status) kwargs)
        else p) }

end Orchestrator

namespace Runner

/-- Sub-task record of the workflow-runner variant (dataclass
`SwarmTask`; the `result` payload is never consulted by the scheduler
and is not modelled). -/
structure SwarmTask where
  task_id : String
  description : String
  worker_type : String
  dependencies : List String
  status : String := "pending"
deriving Repr, DecidableEq

/-- Complex-signal keywords of `SwarmOrchestrator.analyze_complexity`
in `workflow_runner.py` (2 points each). -/
def complex_keywords : List String :=
  ["系统", "架构", "重构", "开发", "实现", "构建", "设计"]

/-- Simple-signal keywords of `analyze_complexity` (1 point each). -/
def simple_keywords : List String :=
  ["修改", "修复", "优化", "添加", "更新"]

/-- The `complexity_score` of `analyze_complexity`. -/
def runnerScore (task_description : String) : Nat :=
  2 * complex_keywords.countP (fun kw => strHasSub task_description kw) +
    simple_keywords.countP (fun kw => strHasSub task_description kw)

/-- Result of `analyze_complexity` (the returned two-entry dict). -/
structure RunnerAnalysis where
  complexity : String
  swarm_mode : Bool
deriving Repr, DecidableEq

/-- `SwarmOrchestrator.analyze_complexity` of `workflow_runner.py`:
note that the medium branch returns `swarm_mode = False`
unconditionally. -/
def analyze_complexity (task_description : String) : RunnerAnalysis :=
  let score := runnerScore task_description
  if score ≥ 4 then { complexity := "complex", swarm_mode := true }
  else if score ≥ 2 then { complexity := "medium", swarm_mode := false }
  else { complexity := "simple", swarm_mode := false }

/-- `SwarmOrchestrator.decompose_task` of `workflow_runner.py`: a fixed
six-task template with literal ids, returned for every description. -/
def decompose_task (_task_description : String) : List SwarmTask :=
  [{ task_id := "task_001", description := "调研技术方案",
     worker_type := "researcher", dependencies := [] },
   { task_id := "task_002", description := "设计系统架构",
     worker_type := "coder", dependencies := ["task_001"] },
   { task_id := "task_003", description := "实现核心功能",
     worker_type := "coder", dependencies := ["task_002"] },
   { task_id := "task_004", description := "编写测试用例",
     worker_type := "tester", dependencies := ["task_003"] },
   { task_id := "task_005", description := "编写文档",
     worker_type := "writer", dependencies := ["task_003"] },
   { task_id := "task_006", description := "代码审查",
     worker_type := "reviewer", dependencies := ["task_003", "task_004", "task_005"] }]

/-- Task ids of a task list (the key set of `task_map` and the initial
`remaining` set of `build_execution_order`). -/
def taskIds (ts : List SwarmTask) : List String := ts.map (·.task_id)

/-- Dependency lookup `task_map[tid].dependencies` (first match; empty
for an absent id, which the loop never queries). -/
def depsOfId (ts : List SwarmTask) (tid : String) : List String :=
  ((ts.find? (fun t => decide (t.task_id = tid))).map (·.dependencies)).getD []

/-- One `ready` computation of `build_execution_order`: the remaining
task ids *all* of whose dependency ids are already in `completed`.  A
dependency id that names no task is never in `completed`, so it keeps
its dependant out of every level. -/
def readyIds (ts : List SwarmTask) (remaining completed : List String) : List String :=
  remaining.filter (fun tid => decide (∀ d ∈ depsOfId ts tid, d ∈ completed))

/-- The `while remaining:` loop of `build_execution_order`, with
explicit fuel; `break`s silently when no task is ready. -/
def runnerAux (ts : List SwarmTask) : Nat → List String → List String → List (List String)
  | 0, _, _ => []
  | Nat.succ fuel, remaining, completed =>
    if readyIds ts remaining completed = [] then []
    else readyIds ts remaining completed ::
      runnerAux ts fuel
        (remaining.filter (fun n => decide (n ∉ readyIds ts remaining completed)))
        (completed ++ readyIds ts remaining completed)

/-- `SwarmOrchestrator.build_execution_order` of `workflow_runner.py`,
returning the scheduled levels as lists of task ids (the Python levels
hold the corresponding `task_map` entries). -/
def build_execution_order (ts : List SwarmTask) : List (List String) :=
  runnerAux ts ts.length (taskIds ts) []

/-- Acyclicity of the dependency relation of a task list, restricted to
ids present in the list (a topological numbering exists). -/
def AcyclicTasks (ts : List SwarmTask) : Prop :=
  ∃ rank : String → Nat,
    ∀ n ∈ taskIds ts, ∀ d ∈ depsOfId ts n, d ∈ taskIds ts → rank d < rank n

/-- Set one task's status in the status assignment of a task list. -/
def setStatus (sts : List (String × String)) (tid v : String) : List (String × String) :=
  sts.map (fun p => if p.1 = tid then (p.1, v) else p)

/-- Execute one level of `execute_parallel`: every task of the level is
submitted to the pool and ends `"completed"` or `"failed"` according to
whether its execution raised (`exec tid = false` models a raising
executor; the real `_execute_single_task` also passes through a
transient `"running"` state that no later read observes). -/
def runLevel (exec : String → Bool) (sts : List (String × String)) (lvl : List String) :
    List (String × String) :=
  lvl.foldl (fun s tid => setStatus s tid (if exec tid then "completed" else "failed")) sts

/-- Final per-task statuses after `execute_parallel` returns: the level
list is computed once up front and every task of every level is
executed, level by level; tasks in no level keep their initial status. -/
def exec_final_statuses (ts : List SwarmTask) (exec : String → Bool) :
    List (String × String) :=
  (build_execution_order ts).foldl (runLevel exec) (ts.map fun t => (t.task_id, t.status))

/-- Summary dict returned by `execute_parallel` (its `status` field is
the literal `"completed"` in the source), extended with the ids
actually submitted to the worker pool, in dispatch order. -/
structure ExecSummary where
  status : String
  total_tasks : Nat
  completed : Nat
  failed : Nat
  executed : List String
deriving Repr, DecidableEq

/-- `SwarmOrchestrator.execute_parallel` of `workflow_runner.py`,
modelled sequentially: levels are dispatched in order and the counters
are taken over the tasks' final statuses. -/
def execute_parallel (ts : List SwarmTask) (exec : String → Bool) : ExecSummary :=
  let levels := build_execution_order ts
  let final := levels.foldl (runLevel exec) (ts.map fun t => (t.task_id, t.status))
  { status := "completed"
    total_tasks := ts.length
    completed := final.countP (fun p => decide (p.2 = "completed"))
    failed := final.countP (fun p => decide (p.2 = "failed"))
    executed := levels.flatten }

end Runner

/-- Observable scheduling events of the execution engine: a task is
handed to the worker pool, or reaches a terminal outcome. -/
inductive Ev where
  | start (tid : String)
  | finish (tid : String) (ok : Bool)
deriving Repr, DecidableEq

/-- The task id an event belongs to. -/
def Ev.tid : Ev → String
  | .start t => t
  | .finish t _ => t

/-- The traces one `ThreadPoolExecutor` block of `execute_parallel` can
produce for a level: some interleaving carrying exactly one `start` and
one `finish` event per task of the level and nothing else.  (The order
of events inside the block is left entirely unconstrained, a superset
of the real thread interleavings.) -/
def LevelTrace (lvl : List String) (tr : List Ev) : Prop :=
  (tr.filterMap (fun e => match e with | .start t => some t | _ => none)).Perm lvl ∧
  (tr.filterMap (fun e => match e with | .finish t _ => some t | _ => none)).Perm lvl

/-- The traces `execute_parallel` can produce for a level list: one
block per level, concatenated in level order — the `with` block joins
every future of a level before the loop advances, a full barrier. -/
inductive EngineTrace : List (List String) → List Ev → Prop
  | nil : EngineTrace [] []
  | cons {lvl : List String} {rest : List (List String)} {b tr : List Ev} :
      LevelTrace lvl b → EngineTrace rest tr → EngineTrace (lvl :: rest) (b ++ tr)


/-! ### Concrete instances used by the counterexamples and witnesses -/

/-- A two-node dependency cycle, as a DAG map. -/
def cycleDag : List (String × List String) := [("a", ["b"]), ("b", ["a"])]

/-- The same two-node cycle as a runner task set. -/
def cycleTasks : List Runner.SwarmTask :=
  [{ task_id := "a", description := "", worker_type := "coder", dependencies := ["b"] },
   { task_id := "b", description := "", worker_type := "coder", dependencies := ["a"] }]

/-- A single task whose only dependency id `"x"` names no task. -/
def danglingTasks : List Runner.SwarmTask :=
  [{ task_id := "t1", description := "", worker_type := "coder", dependencies := ["x"] }]

/-- The dangling-dependency task as a persisted queue. -/
def danglingQueue : Orchestrator.SwarmQueue :=
  { tasks := [{ task_id := "t1", status := "pending", dependencies := ["x"] }] }

/-- Task set for the failure-propagation scenario: `d` depends on `a`. -/
def failTasks : List Runner.SwarmTask :=
  [{ task_id := "a", description := "", worker_type := "coder", dependencies := [] },
   { task_id := "d", description := "", worker_type := "coder", dependencies := ["a"] }]

/-- Executor that raises for task `a` and succeeds for every other task. -/
def failExec : String → Bool := fun tid => if tid = "a" then false else true

/-- A small acyclic DAG used to instantiate the scheduler theorems. -/
def wDag : List (String × List String) := [("a", ["b"]), ("b", [])]

/-- Two chained runner tasks used to instantiate the engine theorems. -/
def wTasks : List Runner.SwarmTask :=
  [{ task_id := "a", description := "", worker_type := "coder", dependencies := [] },
   { task_id := "b", description := "", worker_type := "coder", dependencies := ["a"] }]

/-- One concrete execution trace of `wTasks`. -/
def wTrace : List Ev :=
  [.start "a", .finish "a" true, .start "b", .finish "b" true]

/-- The four-complex-keyword request of the C4 scenario. -/
def c4Request : String := "开发 架构 系统 重构"

/-- A concrete id supply standing in for `uuid.uuid4()`. -/
def c4Ids : Nat → String := fun n => "task_" ++ toString n

/-- A medium-score request carrying the parallelism hint `"并行"`. -/
def c5Request : String := "修改 修复 并行"

/-- A queue with one failed and one completed task. -/
def mixedQueue : Orchestrator.SwarmQueue :=
  { tasks := [{ task_id := "a", status := "failed", dependencies := [] },
              { task_id := "b", status := "completed", dependencies := [] }] }

/-- A queue holding a single completed task. -/
def soloQueue : Orchestrator.SwarmQueue :=
  { tasks := [{ task_id := "a", status := "completed", dependencies := [] }] }

/-- A raw queue record for the frame-property witness. -/
def rawQueueW : Orchestrator.RawQueue :=
  { main_task_id := "main_1"
    tasks := [("a", [("status", "pending"), ("worker_type", "coder")]),
              ("b", [("status", "pending")])]
    dag := [("a", []), ("b", ["a"])]
    execution_order := [["a"], ["b"]] }

/-! ### Generic helper lemmas -/

/-- Every nonempty list has an element of minimal rank. -/
theorem exists_rank_min {α : Type} (f : α → Nat) :
    ∀ l : List α, l ≠ [] → ∃ n ∈ l, ∀ m ∈ l, f n ≤ f m := by
  intro l
  induction l with
  | nil => intro h; exact absurd rfl h
  | cons a t ih =>
    intro _
    rcases eq_or_ne t [] with rfl | ht
    · exact ⟨a, by simp, by simp⟩
    · obtain ⟨n, hn, hmin⟩ := ih ht
      rcases le_total (f a) (f n) with h | h
      · refine ⟨a, by simp, ?_⟩
        intro m hm
        rcases List.mem_cons.mp hm with rfl | hm
        · exact le_refl _
        · exact le_trans h (hmin m hm)
      · refine ⟨n, List.mem_cons_of_mem _ hn, ?_⟩
        intro m hm
        rcases List.mem_cons.mp hm with rfl | hm
        · exact h
        · exact hmin m hm

namespace Orchestrator

/-- Membership in one `ready` batch of the Kahn loop. -/
theorem mem_kahnReady {g : List (String × List String)} {remaining : List String}
    {n : String} :
    n ∈ kahnReady g remaining ↔
      n ∈ remaining ∧ ∀ d ∈ depsOf g n, d ∉ remaining := by
  simp [kahnReady, List.mem_filter]

/-- On an acyclic restriction, a nonempty `remaining` set always has a
ready node (the one of minimal rank), so the loop keeps progressing. -/
theorem kahnReady_ne_nil {g : List (String × List String)} (rank : String → Nat)
    (hrank : ∀ n ∈ gkeys g, ∀ d ∈ depsOf g n, d ∈ gkeys g → rank d < rank n)
    {remaining : List String} (hne : remaining ≠ [])
    (hsub : ∀ x ∈ remaining, x ∈ gkeys g) :
    kahnReady g remaining ≠ [] := by
  obtain ⟨n, hn, hmin⟩ := exists_rank_min rank remaining hne
  have hmem : n ∈ kahnReady g remaining := by
    apply mem_kahnReady.mpr
    refine ⟨hn, ?_⟩
    intro d hd hdR
    have hlt := hrank n (hsub n hn) d hd (hsub d hdR)
    have hle := hmin d hdR
    omega
  exact List.ne_nil_of_mem hmem

end Orchestrator

namespace Orchestrator

/-- Each Kahn step removes at least one node once a ready node exists. -/
theorem kahn_rest_length_lt {g : List (String × List String)}
    {remaining : List String} (hready : kahnReady g remaining ≠ []) :
    (remaining.filter (fun n => decide (n ∉ kahnReady g remaining))).length <
      remaining.length := by
  rcases List.exists_mem_of_ne_nil _ hready with ⟨x, hx⟩
  have hxR : x ∈ remaining := (mem_kahnReady.mp hx).1
  apply List.length_filter_lt_length_iff_exists.mpr
  exact ⟨x, hxR, by simp [hx]⟩

/-- The flattened levels of the Kahn loop are a permutation of the
`remaining` set, provided a topological rank witnesses acyclicity and
the fuel dominates the number of nodes. -/
theorem kahnAux_flatten_perm {g : List (String × List String)} (rank : String → Nat)
    (hrank : ∀ n ∈ gkeys g, ∀ d ∈ depsOf g n, d ∈ gkeys g → rank d < rank n) :
    ∀ fuel remaining, remaining.length ≤ fuel → (∀ x ∈ remaining, x ∈ gkeys g) →
      ((kahnAux g fuel remaining).flatten).Perm remaining := by
  intro fuel
  induction fuel with
  | zero =>
    intro remaining hlen _
    have hnil : remaining = [] := List.eq_nil_of_length_eq_zero (Nat.le_zero.mp hlen)
    subst hnil
    simp [kahnAux]
  | succ fuel ih =>
    intro remaining hlen hsub
    rcases eq_or_ne remaining [] with rfl | hne
    · simp [kahnAux, kahnReady]
    · have hready : kahnReady g remaining ≠ [] := kahnReady_ne_nil rank hrank hne hsub
      rw [kahnAux, if_neg hready, List.flatten_cons]
      have hlt := kahn_rest_length_lt hready
      have hrec := ih (remaining.filter (fun n => decide (n ∉ kahnReady g remaining)))
        (by omega)
        (fun x hx => hsub x (List.mem_of_mem_filter hx))
      have happ := List.Perm.append_left (kahnReady g remaining) hrec
      refine happ.trans ?_
      have hrw : remaining.filter (fun n => decide (n ∉ kahnReady g remaining)) =
          remaining.filter (fun n => !(decide (∀ d ∈ depsOf g n, d ∉ remaining))) := by
        apply List.filter_congr
        intro x hxR
        by_cases hP : ∀ d ∈ depsOf g x, d ∉ remaining
        · have hxready : x ∈ kahnReady g remaining := mem_kahnReady.mpr ⟨hxR, hP⟩
          rw [decide_eq_true hP,
            decide_eq_false (show ¬x ∉ kahnReady g remaining from fun hc => hc hxready)]
          rfl
        · have hxnot : x ∉ kahnReady g remaining := fun hc => hP (mem_kahnReady.mp hc).2
          rw [decide_eq_false hP, decide_eq_true hxnot]
          rfl
      rw [hrw]
      exact List.filter_append_perm _ remaining

/-- In the level list produced by the Kahn loop, every dependency that
still belonged to `remaining` when the loop started is scheduled in a
strictly earlier level than its dependant. -/
theorem kahnAux_deps_earlier {g : List (String × List String)} :
    ∀ fuel remaining k lvl, (kahnAux g fuel remaining).get? k = some lvl →
      ∀ t ∈ lvl, ∀ d ∈ depsOf g t, d ∈ remaining →
        ∃ j lvlj, j < k ∧ (kahnAux g fuel remaining).get? j = some lvlj ∧ d ∈ lvlj := by
  intro fuel
  induction fuel with
  | zero =>
    intro remaining k lvl hk
    simp [kahnAux] at hk
  | succ fuel ih =>
    intro remaining k lvl hk t ht d hd hdR
    by_cases hready : kahnReady g remaining = []
    · rw [kahnAux, if_pos hready] at hk
      simp at hk
    · rw [kahnAux, if_neg hready] at hk
      rw [kahnAux, if_neg hready]
      cases k with
      | zero =>
        rw [List.get?_cons_zero] at hk
        injection hk with hk
        subst hk
        exact absurd hdR ((mem_kahnReady.mp ht).2 d hd)
      | succ k =>
        rw [List.get?_cons_succ] at hk
        by_cases hdready : d ∈ kahnReady g remaining
        · exact ⟨0, kahnReady g remaining, Nat.succ_pos k, List.get?_cons_zero, hdready⟩
        · have hdrest : d ∈ remaining.filter (fun n => decide (n ∉ kahnReady g remaining)) := by
            rw [List.mem_filter]
            exact ⟨hdR, by simp [hdready]⟩
          obtain ⟨j, lvlj, hjk, hj, hdj⟩ := ih _ k lvl hk t ht d hd hdrest
          exact ⟨j + 1, lvlj, Nat.succ_lt_succ hjk,
            by rw [List.get?_cons_succ]; exact hj, hdj⟩

/-- The flattened levels of the Kahn loop repeat no node and only
mention nodes of `remaining`. -/
theorem kahnAux_flatten_nodup {g : List (String × List String)} :
    ∀ fuel remaining, remaining.Nodup →
      ((kahnAux g fuel remaining).flatten).Nodup ∧
        ∀ x ∈ (kahnAux g fuel remaining).flatten, x ∈ remaining := by
  intro fuel
  induction fuel with
  | zero =>
    intro remaining _
    simp [kahnAux]
  | succ fuel ih =>
    intro remaining hnd
    by_cases hready : kahnReady g remaining = []
    · rw [kahnAux, if_pos hready]
      simp
    · rw [kahnAux, if_neg hready, List.flatten_cons]
      have hrec := ih (remaining.filter (fun n => decide (n ∉ kahnReady g remaining)))
        (List.Nodup.filter _ hnd)
      have hreadynd : (kahnReady g remaining).Nodup := List.Nodup.filter _ hnd
      constructor
      · rw [List.nodup_append]
        refine ⟨hreadynd, hrec.1, ?_⟩
        intro x hxready hxrec
        have hxrest := hrec.2 x hxrec
        rw [List.mem_filter] at hxrest
        have : x ∉ kahnReady g remaining := by simpa using hxrest.2
        exact this hxready
      · intro x hx
        rcases List.mem_append.mp hx with hx | hx
        · exact (mem_kahnReady.mp hx).1
        · exact List.mem_of_mem_filter (hrec.2 x hx)

end Orchestrator

namespace Runner

/-- Membership in one `ready` batch of `build_execution_order`. -/
theorem mem_readyIds {ts : List SwarmTask} {remaining completed : List String}
    {n : String} :
    n ∈ readyIds ts remaining completed ↔
      n ∈ remaining ∧ ∀ d ∈ depsOfId ts n, d ∈ completed := by
  simp [readyIds, List.mem_filter]

/-- Progress of the runner loop: with a topological rank and every
dependency of a remaining task either already completed or still
remaining, a nonempty `remaining` set always has a ready task. -/
theorem readyIds_ne_nil {ts : List SwarmTask} (rank : String → Nat)
    (hrank : ∀ n ∈ taskIds ts, ∀ d ∈ depsOfId ts n, d ∈ taskIds ts → rank d < rank n)
    {remaining completed : List String} (hne : remaining ≠ [])
    (hsub : ∀ x ∈ remaining, x ∈ taskIds ts)
    (hinv : ∀ n ∈ remaining, ∀ d ∈ depsOfId ts n, d ∈ completed ∨ d ∈ remaining) :
    readyIds ts remaining completed ≠ [] := by
  obtain ⟨n, hn, hmin⟩ := exists_rank_min rank remaining hne
  have hmem : n ∈ readyIds ts remaining completed := by
    apply mem_readyIds.mpr
    refine ⟨hn, ?_⟩
    intro d hd
    rcases hinv n hn d hd with hc | hr
    · exact hc
    · have hlt := hrank n (hsub n hn) d hd (hsub d hr)
      have hle := hmin d hr
      omega
  exact List.ne_nil_of_mem hmem

/-- Each runner step removes at least one task once a ready task exists. -/
theorem runner_rest_length_lt {ts : List SwarmTask}
    {remaining completed : List String}
    (hready : readyIds ts remaining completed ≠ []) :
    (remaining.filter (fun n => decide (n ∉ readyIds ts remaining completed))).length <
      remaining.length := by
  rcases List.exists_mem_of_ne_nil _ hready with ⟨x, hx⟩
  have hxR : x ∈ remaining := (mem_readyIds.mp hx).1
  apply List.length_filter_lt_length_iff_exists.mpr
  exact ⟨x, hxR, by simp [hx]⟩

/-- The flattened levels of the runner loop are a permutation of the
`remaining` set, provided a topological rank witnesses acyclicity, all
dependencies of remaining tasks are completed or remaining, and the
fuel dominates the number of tasks. -/
theorem runnerAux_flatten_perm {ts : List SwarmTask} (rank : String → Nat)
    (hrank : ∀ n ∈ taskIds ts, ∀ d ∈ depsOfId ts n, d ∈ taskIds ts → rank d < rank n) :
    ∀ fuel remaining completed, remaining.length ≤ fuel →
      (∀ x ∈ remaining, x ∈ taskIds ts) →
      (∀ n ∈ remaining, ∀ d ∈ depsOfId ts n, d ∈ completed ∨ d ∈ remaining) →
      ((runnerAux ts fuel remaining completed).flatten).Perm remaining := by
  intro fuel
  induction fuel with
  | zero =>
    intro remaining completed hlen _ _
    have hnil : remaining = [] := List.eq_nil_of_length_eq_zero (Nat.le_zero.mp hlen)
    subst hnil
    simp [runnerAux]
  | succ fuel ih =>
    intro remaining completed hlen hsub hinv
    rcases eq_or_ne remaining [] with rfl | hne
    · simp [runnerAux, readyIds]
    · have hready : readyIds ts remaining completed ≠ [] :=
        readyIds_ne_nil rank hrank hne hsub hinv
      rw [runnerAux, if_neg hready, List.flatten_cons]
      have hlt := runner_rest_length_lt hready
      have hinv' : ∀ n ∈ remaining.filter
            (fun n => decide (n ∉ readyIds ts remaining completed)),
          ∀ d ∈ depsOfId ts n,
            d ∈ completed ++ readyIds ts remaining completed ∨
              d ∈ remaining.filter
                (fun n => decide (n ∉ readyIds ts remaining completed)) := by
        intro n hn d hd
        have hnR := List.mem_of_mem_filter hn
        rcases hinv n hnR d hd with hc | hr
        · exact Or.inl (List.mem_append.mpr (Or.inl hc))
        · by_cases hdready : d ∈ readyIds ts remaining completed
          · exact Or.inl (List.mem_append.mpr (Or.inr hdready))
          · refine Or.inr ?_
            rw [List.mem_filter]
            exact ⟨hr, by simp [hdready]⟩
      have hrec := ih (remaining.filter (fun n => decide (n ∉ readyIds ts remaining completed)))
        (completed ++ readyIds ts remaining completed)
        (by omega)
        (fun x hx => hsub x (List.mem_of_mem_filter hx))
        hinv'
      have happ := List.Perm.append_left (readyIds ts remaining completed) hrec
      refine happ.trans ?_
      have hrw : remaining.filter (fun n => decide (n ∉ readyIds ts remaining completed)) =
          remaining.filter
            (fun n => !(decide (∀ d ∈ depsOfId ts n, d ∈ completed))) := by
        apply List.filter_congr
        intro x hxR
        by_cases hP : ∀ d ∈ depsOfId ts x, d ∈ completed
        · have hxready : x ∈ readyIds ts remaining completed :=
            mem_readyIds.mpr ⟨hxR, hP⟩
          rw [decide_eq_true hP,
            decide_eq_false
              (show ¬x ∉ readyIds ts remaining completed from fun hc => hc hxready)]
          rfl
        · have hxnot : x ∉ readyIds ts remaining completed :=
            fun hc => hP (mem_readyIds.mp hc).2
          rw [decide_eq_false hP, decide_eq_true hxnot]
          rfl
      rw [hrw]
      exact List.filter_append_perm _ remaining

/-- In the level list of the runner loop, every dependency of a
scheduled task was either already in `completed` when the loop started
or is scheduled in a strictly earlier level. -/
theorem runnerAux_deps_earlier {ts : List SwarmTask} :
    ∀ fuel remaining completed k lvl,
      (runnerAux ts fuel remaining completed).get? k = some lvl →
      ∀ t ∈ lvl, ∀ d ∈ depsOfId ts t,
        d ∈ completed ∨
          ∃ j lvlj, j < k ∧ (runnerAux ts fuel remaining completed).get? j = some lvlj ∧
            d ∈ lvlj := by
  intro fuel
  induction fuel with
  | zero =>
    intro remaining completed k lvl hk
    simp [runnerAux] at hk
  | succ fuel ih =>
    intro remaining completed k lvl hk t ht d hd
    by_cases hready : readyIds ts remaining completed = []
    · rw [runnerAux, if_pos hready] at hk
      simp at hk
    · rw [runnerAux, if_neg hready] at hk
      rw [runnerAux, if_neg hready]
      cases k with
      | zero =>
        rw [List.get?_cons_zero] at hk
        injection hk with hk
        subst hk
        exact Or.inl ((mem_readyIds.mp ht).2 d hd)
      | succ k =>
        rw [List.get?_cons_succ] at hk
        rcases ih _ _ k lvl hk t ht d hd with hc | ⟨j, lvlj, hjk, hj, hdj⟩
        · rcases List.mem_append.mp hc with hc | hc
          · exact Or.inl hc
          · exact Or.inr ⟨0, readyIds ts remaining completed, Nat.succ_pos k,
              List.get?_cons_zero, hc⟩
        · exact Or.inr ⟨j + 1, lvlj, Nat.succ_lt_succ hjk,
            by rw [List.get?_cons_succ]; exact hj, hdj⟩

/-- The flattened levels of the runner loop repeat no task and only
mention tasks of `remaining`. -/
theorem runnerAux_flatten_nodup {ts : List SwarmTask} :
    ∀ fuel remaining completed, remaining.Nodup →
      ((runnerAux ts fuel remaining completed).flatten).Nodup ∧
        ∀ x ∈ (runnerAux ts fuel remaining completed).flatten, x ∈ remaining := by
  intro fuel
  induction fuel with
  | zero =>
    intro remaining completed _
    simp [runnerAux]
  | succ fuel ih =>
    intro remaining completed hnd
    by_cases hready : readyIds ts remaining completed = []
    · rw [runnerAux, if_pos hready]
      simp
    · rw [runnerAux, if_neg hready, List.flatten_cons]
      have hrec := ih
        (remaining.filter (fun n => decide (n ∉ readyIds ts remaining completed)))
        (completed ++ readyIds ts remaining completed)
        (List.Nodup.filter _ hnd)
      have hreadynd : (readyIds ts remaining completed).Nodup := List.Nodup.filter _ hnd
      constructor
      · rw [List.nodup_append]
        refine ⟨hreadynd, hrec.1, ?_⟩
        intro x hxready hxrec
        have hxrest := hrec.2 x hxrec
        rw [List.mem_filter] at hxrest
        have : x ∉ readyIds ts remaining completed := by simpa using hxrest.2
        exact this hxready
      · intro x hx
        rcases List.mem_append.mp hx with hx | hx
        · exact (mem_readyIds.mp hx).1
        · exact List.mem_of_mem_filter (hrec.2 x hx)

end Runner

namespace Orchestrator

/-- `find?` by key commutes with filtering every value list. -/
theorem find?_map_filter (q : String → Bool)
    (g : List (String × List String)) (n : String) :
    (g.map (fun p => (p.1, p.2.filter q))).find? (fun p => decide (p.1 = n)) =
      (g.find? (fun p => decide (p.1 = n))).map (fun p => (p.1, p.2.filter q)) := by
  induction g with
  | nil => rfl
  | cons p t ih =>
    simp only [List.map_cons]
    by_cases h : p.1 = n
    · rw [List.find?_cons_of_pos _ (by simp [h]), List.find?_cons_of_pos _ (by simp [h])]
      rfl
    · rw [List.find?_cons_of_neg _ (by simp [h]), List.find?_cons_of_neg _ (by simp [h])]
      exact ih

/-- Restricting the DAG filters every dependency list down to in-graph
ids. -/
theorem depsOf_restrict (g : List (String × List String)) (n : String) :
    depsOf (restrictDag g) n = (depsOf g n).filter (fun d => decide (d ∈ gkeys g)) := by
  unfold depsOf restrictDag
  rw [find?_map_filter (fun d => decide (d ∈ gkeys g)) g n]
  cases h : g.find? (fun p => decide (p.1 = n)) with
  | none => simp [h]
  | some p => simp [h]

/-- Restriction does not change the key set. -/
theorem gkeys_restrict (g : List (String × List String)) :
    gkeys (restrictDag g) = gkeys g := by
  simp [gkeys, restrictDag]

/-- Over a `remaining` set of in-graph ids, the ready batch ignores
dangling dependencies: restricting the DAG changes nothing. -/
theorem kahnReady_restrict {g : List (String × List String)} {remaining : List String}
    (hsub : ∀ x ∈ remaining, x ∈ gkeys g) :
    kahnReady (restrictDag g) remaining = kahnReady g remaining := by
  unfold kahnReady
  apply List.filter_congr
  intro x _
  rw [decide_eq_decide, depsOf_restrict]
  constructor
  · intro h d hd hdR
    exact h d (List.mem_filter.mpr ⟨hd, decide_eq_true (hsub d hdR)⟩) hdR
  · intro h d hd
    exact h d (List.mem_filter.mp hd).1

/-- The whole Kahn loop ignores dangling dependencies. -/
theorem kahnAux_restrict {g : List (String × List String)} :
    ∀ fuel remaining, (∀ x ∈ remaining, x ∈ gkeys g) →
      kahnAux (restrictDag g) fuel remaining = kahnAux g fuel remaining := by
  intro fuel
  induction fuel with
  | zero => intro remaining _; rfl
  | succ fuel ih =>
    intro remaining hsub
    rw [kahnAux, kahnAux, kahnReady_restrict hsub]
    by_cases hready : kahnReady g remaining = []
    · rw [if_pos hready, if_pos hready]
    · rw [if_neg hready, if_neg hready,
        ih _ (fun x hx => hsub x (List.mem_of_mem_filter hx))]

/-- `get_execution_order` ignores dangling dependencies entirely. -/
theorem get_execution_order_restrict (g : List (String × List String)) :
    get_execution_order (restrictDag g) = get_execution_order g := by
  unfold get_execution_order
  rw [gkeys_restrict]
  exact kahnAux_restrict _ _ (fun x hx => hx)

end Orchestrator

/-- Every event of a level block belongs to a task of that level. -/
theorem levelTrace_mem_tid {lvl : List String} {tr : List Ev}
    (h : LevelTrace lvl tr) : ∀ e ∈ tr, e.tid ∈ lvl := by
  intro e he
  cases e with
  | start t =>
    have hm : t ∈ tr.filterMap (fun e => match e with | .start t => some t | _ => none) :=
      List.mem_filterMap.mpr ⟨.start t, he, rfl⟩
    exact h.1.mem_iff.mp hm
  | finish t ok =>
    have hm : t ∈ tr.filterMap (fun e => match e with | .finish t _ => some t | _ => none) :=
      List.mem_filterMap.mpr ⟨.finish t ok, he, rfl⟩
    exact h.2.mem_iff.mp hm

/-- Every event of an engine trace belongs to a scheduled task. -/
theorem engineTrace_mem_tid {L : List (List String)} {tr : List Ev}
    (h : EngineTrace L tr) : ∀ e ∈ tr, e.tid ∈ L.flatten := by
  induction h with
  | nil => intro e he; simp at he
  | cons hb _ ih =>
    intro e he
    rw [List.flatten_cons]
    rcases List.mem_append.mp he with he | he
    · exact List.mem_append.mpr (Or.inl (levelTrace_mem_tid hb e he))
    · exact List.mem_append.mpr (Or.inr (ih e he))

/-- Cross-level barrier of the engine: in every trace the engine can
produce, every event of a task of an earlier level occurs strictly
before every event of a task of a later level (in particular, no task
of a later level starts before every task of an earlier level has
finished). -/
theorem engineTrace_cross {L : List (List String)} {tr : List Ev}
    (htr : EngineTrace L tr) :
    L.flatten.Nodup →
      ∀ j k lvlj lvlk, j < k → L.get? j = some lvlj → L.get? k = some lvlk →
        ∀ t ∈ lvlj, ∀ u ∈ lvlk,
          ∀ i1 i2 (h1 : i1 < tr.length) (h2 : i2 < tr.length),
            tr[i1].tid = t → tr[i2].tid = u → i1 < i2 := by
  induction htr with
  | nil =>
    intro _ j k lvlj lvlk _ hj _
    simp at hj
  | cons hb hrest ih =>
    rename_i lvl rest b tr2
    intro hnd j k lvlj lvlk hjk hj hk t htl u hul i1 i2 h1 h2 ht hu
    rw [List.flatten_cons, List.nodup_append] at hnd
    obtain ⟨hndl, hndr, hdisj⟩ := hnd
    have hblen : (b ++ tr2).length = b.length + tr2.length := List.length_append b tr2
    cases k with
    | zero => omega
    | succ k =>
      rw [List.get?_cons_succ] at hk
      have hu_flat : u ∈ rest.flatten :=
        List.mem_flatten.mpr ⟨lvlk, List.get?_mem hk, hul⟩
      have hi2_right : b.length ≤ i2 := by
        by_contra hc
        push_neg at hc
        have hget : (b ++ tr2)[i2] = b[i2] := List.getElem_append_left hc
        have hmem : b[i2] ∈ b := List.getElem_mem hc
        have : (b[i2]).tid ∈ lvl := levelTrace_mem_tid hb _ hmem
        rw [← hget, hu] at this
        exact hdisj this hu_flat
      cases j with
      | zero =>
        rw [List.get?_cons_zero] at hj
        injection hj with hj
        subst hj
        have hi1_left : i1 < b.length := by
          by_contra hc
          push_neg at hc
          have hlt2 : i1 - b.length < tr2.length := by omega
          have hget : (b ++ tr2)[i1] = tr2[i1 - b.length] := List.getElem_append_right hc
          have hmem : tr2[i1 - b.length] ∈ tr2 := List.getElem_mem hlt2
          have : (tr2[i1 - b.length]).tid ∈ rest.flatten := engineTrace_mem_tid hrest _ hmem
          rw [← hget, ht] at this
          exact hdisj htl this
        omega
      | succ j =>
        rw [List.get?_cons_succ] at hj
        have ht_flat : t ∈ rest.flatten :=
          List.mem_flatten.mpr ⟨lvlj, List.get?_mem hj, htl⟩
        have hi1_right : b.length ≤ i1 := by
          by_contra hc
          push_neg at hc
          have hget : (b ++ tr2)[i1] = b[i1] := List.getElem_append_left hc
          have hmem : b[i1] ∈ b := List.getElem_mem hc
          have : (b[i1]).tid ∈ lvl := levelTrace_mem_tid hb _ hmem
          rw [← hget, ht] at this
          exact hdisj this ht_flat
        have hlt1 : i1 - b.length < tr2.length := by omega
        have hlt2 : i2 - b.length < tr2.length := by omega
        have hget1 : (b ++ tr2)[i1] = tr2[i1 - b.length] := List.getElem_append_right hi1_right
        have hget2 : (b ++ tr2)[i2] = tr2[i2 - b.length] := List.getElem_append_right hi2_right
        have hres := ih hndr j k lvlj lvlk (by omega) hj hk t htl u hul
          (i1 - b.length) (i2 - b.length) hlt1 hlt2
          (by rw [← hget1]; exact ht) (by rw [← hget2]; exact hu)
        omega

namespace Orchestrator

/-- Rewriting the value stored under one key leaves every other key's
lookup unchanged. -/
theorem lookupRec_map_set_ne {α : Type} (m : List (String × α)) (tid : String) (w : α) :
    ∀ k, k ≠ tid →
      lookupRec (m.map (fun p => if p.1 = tid then (p.1, w) else p)) k = lookupRec m k := by
  induction m with
  | nil => intro k _; rfl
  | cons p t ih =>
    intro k hk
    by_cases hp : p.1 = k
    · unfold lookupRec
      rw [List.map_cons, List.find?_cons_of_pos _ (by simp [apply_ite Prod.fst, hp]),
        List.find?_cons_of_pos _ (by simp [hp])]
      have : p.1 ≠ tid := by rw [hp]; exact hk
      simp [this]
    · unfold lookupRec
      rw [List.map_cons, List.find?_cons_of_neg _ (by simp [apply_ite Prod.fst, hp]),
        List.find?_cons_of_neg _ (by simp [hp])]
      exact ih k hk

/-- Rewriting the value stored under a present key makes its lookup
return the new value. -/
theorem lookupRec_map_set_eq {α : Type} (m : List (String × α)) (tid : String) (w : α) :
    (lookupRec m tid).isSome →
      lookupRec (m.map (fun p => if p.1 = tid then (p.1, w) else p)) tid = some w := by
  induction m with
  | nil => intro h; simp [lookupRec] at h
  | cons p t ih =>
    intro h
    by_cases hp : p.1 = tid
    · unfold lookupRec
      rw [List.map_cons, List.find?_cons_of_pos _ (by simp [apply_ite Prod.fst, hp])]
      simp [hp]
    · unfold lookupRec
      rw [List.map_cons, List.find?_cons_of_neg _ (by simp [apply_ite Prod.fst, hp])]
      unfold lookupRec at h ih
      rw [List.find?_cons_of_neg _ (by simp [hp])] at h
      exact ih h

/-- `setField` leaves every other field's lookup unchanged. -/
theorem lookupRec_setField_ne (r : TaskRec) (k v fk : String) (h : fk ≠ k) :
    lookupRec (setField r k v) fk = lookupRec r fk := by
  unfold setField
  by_cases hs : (r.find? (fun p => decide (p.1 = k))).isSome
  · rw [if_pos hs]
    exact lookupRec_map_set_ne r k v fk h
  · rw [if_neg hs]
    unfold lookupRec
    rw [List.find?_append]
    have : ([(k, v)].find? (fun p => decide (p.1 = fk))) = none := by
      simp [List.find?, Ne.symm h]
    rw [this, Option.or_none]

/-- `update(kwargs)` leaves every field outside `kwargs` unchanged. -/
theorem lookupRec_applyFields_ne (kwargs : List (String × String)) :
    ∀ (r : TaskRec) (fk : String), fk ∉ kwargs.map Prod.fst →
      lookupRec (applyFields r kwargs) fk = lookupRec r fk := by
  induction kwargs with
  | nil => intro r fk _; rfl
  | cons p t ih =>
    intro r fk hfk
    rw [List.map_cons, List.mem_cons] at hfk
    push_neg at hfk
    unfold applyFields
    rw [List.foldl_cons]
    have step := ih (setField r p.1 p.2) fk hfk.2
    unfold applyFields at step
    rw [step]
    exact lookupRec_setField_ne r p.1 p.2 fk hfk.1

end Orchestrator

/-! ### Claims -/

/-- C1 counterexample: the claim, read over both schedulers, fails for
`build_execution_order`.  The task set `danglingTasks` has an acyclic
dependency graph when restricted to ids present in the set (its only
dependency id `"x"` is not in the set), yet the concatenation of the
levels returned by `build_execution_order` does not contain its task id
`"t1"` at all. -/
theorem claim_C1_counterexample :
    Runner.AcyclicTasks danglingTasks ∧
      "t1" ∈ Runner.taskIds danglingTasks ∧
      "t1" ∉ (Runner.build_execution_order danglingTasks).flatten := by
  refine ⟨⟨fun _ => 0, by decide⟩, by decide, by decide⟩

/-- C1 (amended): for every task set whose dependency graph restricted
to in-set ids is acyclic, `get_execution_order` returns levels whose
concatenation contains every task id exactly once (a permutation of the
key set) with every in-set dependency scheduled in a strictly earlier
level; `build_execution_order` guarantees the same provided additionally
every dependency id belongs to the set. -/
theorem claim_C1 :
    (∀ g : List (String × List String), (Orchestrator.gkeys g).Nodup →
      Orchestrator.AcyclicOn g →
      ((Orchestrator.get_execution_order g).flatten).Perm (Orchestrator.gkeys g) ∧
      (∀ k lvl, (Orchestrator.get_execution_order g).get? k = some lvl →
        ∀ t ∈ lvl, ∀ d ∈ Orchestrator.depsOf g t, d ∈ Orchestrator.gkeys g →
          ∃ j lvlj, j < k ∧ (Orchestrator.get_execution_order g).get? j = some lvlj ∧
            d ∈ lvlj)) ∧
    (∀ ts : List Runner.SwarmTask, (Runner.taskIds ts).Nodup →
      Runner.AcyclicTasks ts →
      (∀ n ∈ Runner.taskIds ts, ∀ d ∈ Runner.depsOfId ts n, d ∈ Runner.taskIds ts) →
      ((Runner.build_execution_order ts).flatten).Perm (Runner.taskIds ts) ∧
      (∀ k lvl, (Runner.build_execution_order ts).get? k = some lvl →
        ∀ t ∈ lvl, ∀ d ∈ Runner.depsOfId ts t,
          ∃ j lvlj, j < k ∧ (Runner.build_execution_order ts).get? j = some lvlj ∧
            d ∈ lvlj)) := by
  constructor
  · intro g _ hacy
    obtain ⟨rank, hrank⟩ := hacy
    constructor
    · exact Orchestrator.kahnAux_flatten_perm rank hrank _ _ le_rfl (fun x hx => hx)
    · intro k lvl hk t ht d hd hdk
      exact Orchestrator.kahnAux_deps_earlier _ _ k lvl hk t ht d hd hdk
  · intro ts _ hacy hclosed
    obtain ⟨rank, hrank⟩ := hacy
    have hlen : (Runner.taskIds ts).length ≤ ts.length := by
      simp [Runner.taskIds]
    constructor
    · exact Runner.runnerAux_flatten_perm rank hrank _ _ _ hlen (fun x hx => hx)
        (fun n hn d hd => Or.inr (hclosed n hn d hd))
    · intro k lvl hk t ht d hd
      rcases Runner.runnerAux_deps_earlier _ _ _ k lvl hk t ht d hd with hc | h
      · simp at hc
      · exact h

/-- C1 witness: the amended theorem applied to the concrete acyclic DAG
`wDag` and to the fixed six-task template of the runner decomposer. -/
theorem claim_C1_witness :
    ((Orchestrator.get_execution_order wDag).flatten).Perm (Orchestrator.gkeys wDag) ∧
      ((Runner.build_execution_order (Runner.decompose_task "x")).flatten).Perm
        (Runner.taskIds (Runner.decompose_task "x")) := by
  constructor
  · exact (claim_C1.1 wDag (by decide)
      ⟨fun s => if s = "b" then 0 else 1, by decide⟩).1
  · exact (claim_C1.2 (Runner.decompose_task "x") (by decide)
      ⟨fun s => if s = "task_001" then 0 else if s = "task_002" then 1
        else if s = "task_003" then 2 else if s = "task_004" then 3
        else if s = "task_005" then 4 else 5, by decide⟩ (by decide)).1

/-- C2: on a two-task dependency cycle both schedulers terminate and
silently return an empty level list — the tasks on the cycle are
dropped and no cycle error of any kind is reported to the caller (the
functions have no error channel at all), contradicting the claim and
confirming the latent bug the specification flags. -/
theorem claim_C2 :
    Orchestrator.get_execution_order cycleDag = [] ∧
      Runner.build_execution_order cycleTasks = [] := by
  constructor <;> decide

/-- C3: the failing scenario evaluated on the engine.  With `a` failing
and `d` depending on `a`, `execute_parallel` still submits `d` to the
worker pool (it appears in the dispatched id list) and `d` finishes
`"completed"` rather than remaining `"pending"` — the precomputed level
list is dispatched wholesale, with no re-check of failed
dependencies. -/
theorem claim_C3 :
    (Runner.execute_parallel failTasks failExec).executed = ["a", "d"] ∧
      Orchestrator.lookupRec (Runner.exec_final_statuses failTasks failExec) "a" =
        some "failed" ∧
      Orchestrator.lookupRec (Runner.exec_final_statuses failTasks failExec) "d" =
        some "completed" := by
  refine ⟨by decide, by decide, by decide⟩

/-- C4: the scenario request evaluated on the analyzer and decomposer.
The score is 8 (≥ 4), the request is classified `complex` with
decomposition enabled, but the matched category is `refactor` (the
request contains `"重构"`), and on that branch `decompose_task`
subscripts the still-empty `tasks` list and raises `IndexError` — it
returns no task list at all, let alone the claimed six-task template. -/
theorem claim_C4 :
    Orchestrator.complexityScore c4Request = 8 ∧
      (Orchestrator.analyze_task c4Request).complexity = "complex" ∧
      (Orchestrator.analyze_task c4Request).swarm_mode = true ∧
      (Orchestrator.analyze_task c4Request).task_type = "refactor" ∧
      Orchestrator.decompose_task (Orchestrator.analyze_task c4Request) c4Ids =
        .error "IndexError: list index out of range" := by
  refine ⟨by decide, by decide, by decide, by decide, by rfl⟩

/-- C5 counterexample: the claim, read over both analyzers, fails for
`analyze_complexity`.  The request `"修改 修复 并行"` scores 2 (two
simple keywords) and contains the parallelism hint `"并行"`, so the
claim requires `decompose = true`; `analyze_complexity` returns
`swarm_mode = false`. -/
theorem claim_C5_counterexample :
    Runner.runnerScore c5Request = 2 ∧
      strHasSub c5Request "并行" = true ∧
      Runner.analyze_complexity c5Request =
        { complexity := "medium", swarm_mode := false } := by
  refine ⟨by decide, by decide, by decide⟩

/-- C5 (amended): `analyze_task` obeys the thresholds exactly as
claimed — score ≥ 4 gives `complex` with decomposition on
unconditionally, score in `[2,4)` gives `medium` with decomposition on
exactly when the request contains `"并行"` or `"同时"`, score < 2 gives
`simple` with decomposition off — while `analyze_complexity` obeys the
same score thresholds but returns `swarm_mode = false` for every
medium-scored request, ignoring parallelism hints. -/
theorem claim_C5 :
    (∀ r : String,
      (Orchestrator.complexityScore r ≥ 4 →
        (Orchestrator.analyze_task r).complexity = "complex" ∧
          (Orchestrator.analyze_task r).swarm_mode = true) ∧
      (2 ≤ Orchestrator.complexityScore r → Orchestrator.complexityScore r < 4 →
        (Orchestrator.analyze_task r).complexity = "medium" ∧
          (Orchestrator.analyze_task r).swarm_mode =
            (strHasSub r "并行" || strHasSub r "同时")) ∧
      (Orchestrator.complexityScore r < 2 →
        (Orchestrator.analyze_task r).complexity = "simple" ∧
          (Orchestrator.analyze_task r).swarm_mode = false)) ∧
    (∀ r : String,
      (Runner.runnerScore r ≥ 4 →
        Runner.analyze_complexity r = { complexity := "complex", swarm_mode := true }) ∧
      (2 ≤ Runner.runnerScore r → Runner.runnerScore r < 4 →
        Runner.analyze_complexity r = { complexity := "medium", swarm_mode := false }) ∧
      (Runner.runnerScore r < 2 →
        Runner.analyze_complexity r = { complexity := "simple", swarm_mode := false })) := by
  constructor
  · intro r
    simp only [Orchestrator.analyze_task]
    refine ⟨?_, ?_, ?_⟩
    · intro h
      simp [h]
    · intro h2 h4
      have hn4 : ¬Orchestrator.complexityScore r ≥ 4 := by omega
      simp [hn4, h2]
    · intro h
      have hn4 : ¬Orchestrator.complexityScore r ≥ 4 := by omega
      have hn2 : ¬Orchestrator.complexityScore r ≥ 2 := by omega
      simp [hn4, hn2]
  · intro r
    simp only [Runner.analyze_complexity]
    refine ⟨?_, ?_, ?_⟩
    · intro h
      simp [h]
    · intro h2 h4
      have hn4 : ¬Runner.runnerScore r ≥ 4 := by omega
      simp [hn4, h2]
    · intro h
      have hn4 : ¬Runner.runnerScore r ≥ 4 := by omega
      have hn2 : ¬Runner.runnerScore r ≥ 2 := by omega
      simp [hn4, hn2]

/-- C5 witness: the amended theorem instantiated on a complex-scored
request, on the hinted medium request, and on the runner analyzer. -/
theorem claim_C5_witness :
    (Orchestrator.analyze_task "开发 实现").complexity = "complex" ∧
      (Orchestrator.analyze_task c5Request).swarm_mode = true ∧
      Runner.analyze_complexity c5Request =
        { complexity := "medium", swarm_mode := false } := by
  refine ⟨((claim_C5.1 "开发 实现").1 (by decide)).1, ?_,
    (claim_C5.2 c5Request).2.1 (by decide) (by decide)⟩
  have h := ((claim_C5.1 c5Request).2.1 (by decide) (by decide)).2
  rw [h]
  decide

/-- C6 counterexample: a dangling dependency id is not treated as
already satisfied by two of the three scheduling functions.  The task
set `danglingTasks` (acyclic when restricted to in-set ids) is
scheduled by `build_execution_order` into an empty level list — its
task is placed in no level — and `get_ready_tasks` reports no ready
task although every in-graph dependency of the pending task is
(vacuously) completed and the rest are dangling. -/
theorem claim_C6_counterexample :
    Runner.AcyclicTasks danglingTasks ∧
      Runner.build_execution_order danglingTasks = [] ∧
      Orchestrator.get_ready_tasks (some danglingQueue) = [] := by
  refine ⟨⟨fun _ => 0, by decide⟩, by decide, by decide⟩

/-- C6 (amended): `get_execution_order` genuinely ignores dangling
dependency ids — restricting the DAG to in-graph edges does not change
its output, and on an acyclic restriction it still places every task id
into some level — and no scheduling function crashes; but
`get_ready_tasks` reports a pending task as ready exactly when *every*
one of its dependency ids, dangling ones included, is the id of a
completed task, so dangling dependencies block readiness there (and
`build_execution_order` likewise omits tasks with dangling
dependencies, per the counterexample). -/
theorem claim_C6 :
    (∀ g : List (String × List String),
      Orchestrator.get_execution_order (Orchestrator.restrictDag g) =
        Orchestrator.get_execution_order g) ∧
    (∀ g : List (String × List String), (Orchestrator.gkeys g).Nodup →
      Orchestrator.AcyclicOn g →
      ((Orchestrator.get_execution_order g).flatten).Perm (Orchestrator.gkeys g)) ∧
    (∀ q : Orchestrator.SwarmQueue, ∀ t : Orchestrator.QTask,
      t ∈ Orchestrator.get_ready_tasks (some q) ↔
        t ∈ q.tasks ∧ t.status = "pending" ∧
          ∀ d ∈ t.dependencies, d ∈ Orchestrator.completedIds q) := by
  refine ⟨Orchestrator.get_execution_order_restrict, ?_, ?_⟩
  · intro g _ hacy
    obtain ⟨rank, hrank⟩ := hacy
    exact Orchestrator.kahnAux_flatten_perm rank hrank _ _ le_rfl (fun x hx => hx)
  · intro q t
    simp [Orchestrator.get_ready_tasks, List.mem_filter, and_assoc]

/-- C6 witness: the amended theorem applied to the dangling-dependency
DAG `[("t1", ["x"])]`: the task is still placed, exactly once. -/
theorem claim_C6_witness :
    ((Orchestrator.get_execution_order [("t1", ["x"])]).flatten).Perm ["t1"] := by
  have h := claim_C6.2.1 [("t1", ["x"])] (by decide) ⟨fun _ => 0, by decide⟩
  simpa [Orchestrator.gkeys] using h

/-- C7: for every trace the engine can produce over the level list
computed by `build_execution_order` (with distinct task ids), levels
are dispatched strictly in order — every event of a task of an earlier
level, in particular its terminal event, precedes every event of a task
of any later level, so no later-level task starts before every
earlier-level task has reached a terminal outcome — and every
dependency of a scheduled task is scheduled in a strictly earlier
level, so a task never starts before its (transitively preceding)
dependencies have terminated. -/
theorem claim_C7 (ts : List Runner.SwarmTask) (tr : List Ev)
    (hids : (Runner.taskIds ts).Nodup)
    (htr : EngineTrace (Runner.build_execution_order ts) tr) :
    (∀ j k lvlj lvlk, j < k →
      (Runner.build_execution_order ts).get? j = some lvlj →
      (Runner.build_execution_order ts).get? k = some lvlk →
      ∀ t ∈ lvlj, ∀ u ∈ lvlk,
        ∀ i1 i2 (h1 : i1 < tr.length) (h2 : i2 < tr.length),
          tr[i1].tid = t → tr[i2].tid = u → i1 < i2) ∧
    (∀ k lvlk, (Runner.build_execution_order ts).get? k = some lvlk →
      ∀ u ∈ lvlk, ∀ d ∈ Runner.depsOfId ts u,
        ∃ j lvlj, j < k ∧ (Runner.build_execution_order ts).get? j = some lvlj ∧
          d ∈ lvlj) := by
  have hnd : ((Runner.build_execution_order ts).flatten).Nodup :=
    (Runner.runnerAux_flatten_nodup ts.length (Runner.taskIds ts) [] hids).1
  constructor
  · exact engineTrace_cross htr hnd
  · intro k lvlk hk u hu d hd
    rcases Runner.runnerAux_deps_earlier ts.length (Runner.taskIds ts) [] k lvlk hk
      u hu d hd with hc | h
    · simp at hc
    · exact h

/-- C7 witness: a concrete trace of the two-level task set `wTasks`;
the theorem places the terminal event of `a` (index 1) strictly before
the start event of `b` (index 2). -/
theorem claim_C7_witness :
    EngineTrace (Runner.build_execution_order wTasks) wTrace ∧ (1 : Nat) < 2 := by
  have h1 : LevelTrace ["a"] [.start "a", .finish "a" true] := by
    constructor <;> decide
  have h2 : LevelTrace ["b"] [.start "b", .finish "b" true] := by
    constructor <;> decide
  have htr0 : EngineTrace [["a"], ["b"]]
      ([Ev.start "a", Ev.finish "a" true] ++ ([Ev.start "b", Ev.finish "b" true] ++ [])) :=
    EngineTrace.cons h1 (EngineTrace.cons h2 EngineTrace.nil)
  have heq : Runner.build_execution_order wTasks = [["a"], ["b"]] := by decide
  have htr : EngineTrace (Runner.build_execution_order wTasks) wTrace := by
    rw [heq]
    exact htr0
  refine ⟨htr, ?_⟩
  exact (claim_C7 wTasks wTrace (by decide) htr).1 0 1 ["a"] ["b"] (by decide)
    (by rw [heq]; rfl) (by rw [heq]; rfl) "a" (by decide) "b" (by decide)
    1 2 (by decide) (by decide) (by decide) (by decide)

/-- C8: the aggregate status derivation of `aggregate_results`: with a
persisted task set, zero failed tasks give `"success"`, at least one
failed together with at least one completed give `"partial"`, and at
least one failed with none completed give `"failed"`. -/
theorem claim_C8 (q : Orchestrator.SwarmQueue) :
    ((Orchestrator.get_progress (some q)).failed = 0 →
      Orchestrator.aggregate_status (some q) = "success") ∧
    ((Orchestrator.get_progress (some q)).failed > 0 →
      (Orchestrator.get_progress (some q)).completed > 0 →
      Orchestrator.aggregate_status (some q) = "partial") ∧
    ((Orchestrator.get_progress (some q)).failed > 0 →
      (Orchestrator.get_progress (some q)).completed = 0 →
      Orchestrator.aggregate_status (some q) = "failed") := by
  simp only [Orchestrator.aggregate_status]
  refine ⟨?_, ?_, ?_⟩
  · intro h
    rw [if_neg (by omega)]
  · intro h1 h2
    rw [if_pos h1, if_pos h2]
  · intro h1 h2
    rw [if_pos h1, if_neg (by omega)]

/-- C8 witness: a queue with one failed and one completed task
aggregates to `"partial"`. -/
theorem claim_C8_witness :
    Orchestrator.aggregate_status (some mixedQueue) = "partial" :=
  (claim_C8 mixedQueue).2.1 (by decide) (by decide)

/-- C9: for every persisted task set the reported progress percentage
is in `[0, 100]`, equals `completed / total * 100` when `total > 0`
(since `completed ≤ total`), and equals `0` when the task map is empty;
and for a missing or empty queue file the guarded early return carries
the zero counters without any percentage field, so no division by zero
can occur in any case. -/
theorem claim_C9 :
    (∀ q : Orchestrator.SwarmQueue, ∀ p : ℚ,
      (Orchestrator.get_progress (some q)).progress_percent = some p →
      0 ≤ p ∧ p ≤ 100 ∧
        ((Orchestrator.get_progress (some q)).total = 0 → p = 0) ∧
        (0 < (Orchestrator.get_progress (some q)).total →
          p = ((Orchestrator.get_progress (some q)).completed : ℚ) /
              ((Orchestrator.get_progress (some q)).total : ℚ) * 100)) ∧
    Orchestrator.get_progress none =
      { total := 0, completed := 0, running := 0, pending := 0, failed := 0,
        progress_percent := none } := by
  constructor
  · intro q p hp
    simp only [Orchestrator.get_progress] at hp ⊢
    have hc : q.tasks.countP (fun t => decide (t.status = "completed")) ≤
        q.tasks.length := List.countP_le_length _
    by_cases ht : q.tasks.length > 0
    · rw [if_pos ht] at hp
      injection hp with hp
      subst hp
      have htq : (0 : ℚ) < (q.tasks.length : ℚ) := by exact_mod_cast ht
      have hcq : ((q.tasks.countP (fun t => decide (t.status = "completed"))) : ℚ) ≤
          (q.tasks.length : ℚ) := by exact_mod_cast hc
      refine ⟨?_, ?_, ?_, ?_⟩
      · positivity
      · have hdiv : ((q.tasks.countP (fun t => decide (t.status = "completed"))) : ℚ) /
            (q.tasks.length : ℚ) ≤ 1 := (div_le_one htq).mpr hcq
        calc ((q.tasks.countP (fun t => decide (t.status = "completed"))) : ℚ) /
              (q.tasks.length : ℚ) * 100 ≤ 1 * 100 :=
            mul_le_mul_of_nonneg_right hdiv (by norm_num)
          _ = 100 := by norm_num
      · intro h0
        omega
      · intro _
        rfl
    · rw [if_neg ht] at hp
      injection hp with hp
      subst hp
      refine ⟨le_refl 0, by norm_num, fun _ => rfl, fun h0 => absurd h0 ht⟩
  · rfl

/-- C9 witness: a queue holding one completed task reports exactly
100 %. -/
theorem claim_C9_witness : (0 : ℚ) ≤ 100 ∧ (100 : ℚ) ≤ 100 := by
  have hp : (Orchestrator.get_progress (some soloQueue)).progress_percent =
      some 100 := by
    simp only [Orchestrator.get_progress]
    norm_num [soloQueue]
  have h := claim_C9.1 soloQueue 100 hp
  exact ⟨h.1, h.2.1⟩

/-- C10: frame property of `update_task_status`: a missing task id
leaves the queue file untouched (no write at all), and a present task
id yields a rewritten queue that agrees with the original on
`main_task_id`, `dag`, `execution_order` and on every other task's
record, while the addressed record is exactly the old record with its
`status` field set and the extra keyword fields merged — every field
outside `status` and the keyword arguments is preserved inside it as
well. -/
theorem claim_C10 (q : Orchestrator.RawQueue) (tid status : String)
    (kwargs : List (String × String)) :
    (Orchestrator.lookupRec q.tasks tid = none →
      Orchestrator.update_task_status q tid status kwargs = none) ∧
    (∀ r, Orchestrator.lookupRec q.tasks tid = some r →
      ∃ q', Orchestrator.update_task_status q tid status kwargs = some q' ∧
        q'.main_task_id = q.main_task_id ∧
        q'.dag = q.dag ∧
        q'.execution_order = q.execution_order ∧
        (∀ k, k ≠ tid →
          Orchestrator.lookupRec q'.tasks k = Orchestrator.lookupRec q.tasks k) ∧
        Orchestrator.lookupRec q'.tasks tid =
          some (Orchestrator.applyFields
            (Orchestrator.setField r "status" status) kwargs) ∧
        (∀ fk, fk ≠ "status" → fk ∉ kwargs.map Prod.fst →
          Orchestrator.lookupRec
            (Orchestrator.applyFields (Orchestrator.setField r "status" status) kwargs)
              fk = Orchestrator.lookupRec r fk)) := by
  constructor
  · intro h
    simp only [Orchestrator.update_task_status, h]
  · intro r hr
    refine ⟨{ q with tasks := q.tasks.map (fun p =>
        if p.1 = tid then
          (p.1, Orchestrator.applyFields (Orchestrator.setField r "status" status) kwargs)
        else p) },
      by simp only [Orchestrator.update_task_status, hr], rfl, rfl, rfl,
      ?_, ?_, ?_⟩
    · intro k hk
      exact Orchestrator.lookupRec_map_set_ne q.tasks tid _ k hk
    · exact Orchestrator.lookupRec_map_set_eq q.tasks tid _ (by rw [hr]; rfl)
    · intro fk hfs hfk
      rw [Orchestrator.lookupRec_applyFields_ne kwargs _ fk hfk]
      exact Orchestrator.lookupRec_setField_ne r "status" status fk hfs

/-- C10 witness: the frame theorem applied to a concrete queue — an
absent id writes nothing, a present id preserves the sibling task and
the DAG. -/
theorem claim_C10_witness :
    Orchestrator.update_task_status rawQueueW "c" "completed" [] = none ∧
      ∃ q', Orchestrator.update_task_status rawQueueW "a" "completed"
          [("worker_id", "w1")] = some q' ∧
        q'.dag = rawQueueW.dag ∧
        Orchestrator.lookupRec q'.tasks "b" = Orchestrator.lookupRec rawQueueW.tasks "b" := by
  constructor
  · exact (claim_C10 rawQueueW "c" "completed" []).1 (by decide)
  · obtain ⟨q', hq', _, hdag, _, hframe, _, _⟩ :=
      (claim_C10 rawQueueW "a" "completed" [("worker_id", "w1")]).2
        [("status", "pending"), ("worker_type", "coder")] (by decide)
    exact ⟨q', hq', hdag, hframe "b" (by decide)⟩
